import Mathlib

/-!
Verification of the dutch.cards game-state engine
(src/server/src/composables/use-game-state.js).

The engine is shallowly embedded: the mutable `gameState` object becomes an
explicit `GameState` record threaded through the functions, JS objects keyed
by uid become insertion-ordered association lists, and the Vue computed
`playersArray` becomes a stable insertion sort by table position.  Exceptions
thrown inside a command body become an `Option String` error component that
carries the state as mutated so far (JS try/catch does not roll back earlier
mutations), and the socket gateway's `broadcastUpdate` / `sendReject` calls
become an explicit `Effect` value returned by `executeCommand`.
-/

namespace Dutch

/-- Card orientation: `up` exposes the payload, `down` hides it. -/
inductive Orientation
  | up
  | down
deriving DecidableEq, Repr

/-- A full card as stored in the authoritative state: a unique identifier, an
opaque suit/rank payload (modelled as a single `Nat`), and an orientation. -/
structure Card where
  id : Nat
  payload : Nat
  orientation : Orientation
deriving DecidableEq, Repr

/-- Default card used only to make positional list accesses total. -/
def defaultCard : Card := { id := 0, payload := 0, orientation := Orientation.down }

/-- A card as it appears in a projected client view.  `toFaceDown` produces
`{ id := some _, payload := none }`; a spread of a missing `cardMap` entry in
JS produces a card with neither field, hence both fields are optional. -/
structure ViewCard where
  id : Option Nat
  payload : Option Nat
  orientation : Orientation
deriving DecidableEq, Repr

/-- Pre-game readiness status of a player. -/
inductive PStatus
  | waiting
  | ready
deriving DecidableEq, Repr

/-- A seated player, as stored in `gameState.players[uid]`. -/
structure Player where
  status : PStatus
  position : Nat
  hand : List Card
  isOnline : Bool
deriving DecidableEq, Repr

/-- Game lifecycle phase. -/
inductive Phase
  | pregame
  | ingame
deriving DecidableEq, Repr

/-- The wire-level command vocabulary; `unknownCmd` stands for any identifier
outside the fixed enumeration. -/
inductive CommandId
  | connectToRoom
  | disconnectFromRoom
  | toggleReady
  | restartGame
  | callDutch
  | drawDiscardPile
  | drawDrawPile
  | matchDiscard
  | peek
  | replaceDiscard
  | swap
  | unknownCmd (tag : String)
deriving DecidableEq, Repr

/-- A parsed command object; only its identifier is inspected by the engine. -/
structure Command where
  id : CommandId
deriving DecidableEq, Repr

/-- The `{player, command}` pair delivered by the transport layer. -/
structure ClientCommand where
  player : String
  command : Command
deriving DecidableEq, Repr

/-- The authoritative game state (`initGameState` / `gameState` in the JS).
JS objects keyed by uid / card id become insertion-ordered association
lists. -/
structure GameState where
  phase : Phase
  activePlayerUid : Option String
  actionQueue : List Nat
  cardMap : List (Nat × Card)
  discardPile : List Card
  drawPile : List Card
  players : List (String × Player)
  commands : List (String × Command)
deriving DecidableEq, Repr

/-- The initial state created once at process start. -/
def initGameState : GameState :=
  { phase := Phase.pregame
    activePlayerUid := none
    actionQueue := []
    cardMap := []
    discardPile := []
    drawPile := []
    players := []
    commands := [] }

/-- Association-list lookup for the players map (`gameState.players[uid]`). -/
def lookupP : List (String × Player) → String → Option Player
  | [], _ => none
  | (u, p) :: rest, uid => if u = uid then some p else lookupP rest uid

/-- Association-list lookup for `gameState.cardMap[id]`. -/
def lookupCard : List (Nat × Card) → Nat → Option Card
  | [], _ => none
  | (i, c) :: rest, cid => if i = cid then some c else lookupCard rest cid

/-- Update the entry of a uid in the players map (a JS object holds each key
once, so mutating `players[uid]` touches exactly one entry). -/
def updateFirst : List (String × Player) → String → (Player → Player) → List (String × Player)
  | [], _, _ => []
  | (u, p) :: rest, uid, f =>
    if u = uid then (u, f p) :: rest else (u, p) :: updateFirst rest uid f

/-- JS object spread `{ ...players, [uid]: q }`: replaces the value in place
when the key exists, otherwise appends the new key. -/
def assocSet (l : List (String × Player)) (uid : String) (q : Player) : List (String × Player) :=
  if l.any (fun up => up.1 = uid) then
    l.map (fun up => if up.1 = uid then (uid, q) else up)
  else l ++ [(uid, q)]

/-- Ordering of players by table position (the `playersArray` comparator
`a.position - b.position`). -/
def posLe (a b : String × Player) : Prop := a.2.position ≤ b.2.position

instance : DecidableRel posLe := fun a b => Nat.decLe a.2.position b.2.position

instance : IsTotal (String × Player) posLe :=
  ⟨fun a b => Nat.le_total a.2.position b.2.position⟩

instance : IsTrans (String × Player) posLe :=
  ⟨fun _ _ _ hab hbc => Nat.le_trans hab hbc⟩

/-- The computed `playersArray`: players listed in table-position order (JS
`Array.prototype.sort` is stable, as is insertion sort). -/
def playersArray (s : GameState) : List (String × Player) :=
  List.insertionSort posLe s.players

/-- `addPlayer`: seat a new player at the end of the table. -/
def addPlayer (s : GameState) (uid : String) : GameState :=
  let position := (playersArray s).length
  let newPlayer : Player :=
    { status := PStatus.waiting, position := position, hand := [], isOnline := true }
  { s with players := assocSet s.players uid newPlayer }

/-- Zero-based index of the first occurrence of a uid (the index a JS
`forEach` over `playersArray` would assign). -/
def idxOf : List String → String → Nat
  | [], _ => 0
  | u :: rest, x => if u = x then 0 else idxOf rest x + 1

/-- `removePlayer`: delete the player, then renumber every remaining player's
position to its index in the recomputed `playersArray`. -/
def removePlayer (s : GameState) (uid : String) : GameState :=
  let s1 := { s with players := s.players.filter (fun up => !(up.1 = uid : Bool)) }
  let arr := playersArray s1
  { s1 with
    players := s1.players.map (fun up =>
      (up.1, { up.2 with position := idxOf (arr.map Prod.fst) up.1 })) }

/-- `toFaceUp`: resolve a card reference through `cardMap` and force it face
up.  A missing entry spreads to an object with no id and no payload. -/
def toFaceUp (cardMap : List (Nat × Card)) (c : Card) : ViewCard :=
  match lookupCard cardMap c.id with
  | some m => { id := some m.id, payload := some m.payload, orientation := Orientation.up }
  | none => { id := none, payload := none, orientation := Orientation.up }

/-- `toFaceDown`: reduce a card to identifier plus orientation only. -/
def toFaceDown (c : Card) : ViewCard :=
  { id := some c.id, payload := none, orientation := Orientation.down }

/-- Projected view of a pile: at most the top card plus a count. -/
structure PileView where
  topCard : Option ViewCard
  count : Nat
deriving DecidableEq, Repr

/-- Projected view of one seated player. -/
structure PlayerView where
  uid : String
  status : PStatus
  position : Nat
  hand : List ViewCard
  isOnline : Bool
deriving DecidableEq, Repr

/-- The client-safe state produced by `evalClientState`. -/
structure ClientState where
  phase : Phase
  activePlayerUid : Option String
  actionQueue : List Nat
  discardPile : PileView
  drawPile : PileView
  players : List PlayerView
deriving DecidableEq, Repr

/-- `evalClientState`: project the authoritative state into what one client
may see.  The `player` argument is accepted but (as in the source, whose TODO
notes it) never used. -/
def evalClientState (s : GameState) (player : String) : ClientState :=
  let discardPile : PileView :=
    { topCard := (s.discardPile.getLast?).map (fun c =>
        { id := some c.id, payload := some c.payload, orientation := Orientation.up })
      count := s.discardPile.length }
  let drawPile : PileView :=
    { topCard := (s.drawPile.getLast?).map toFaceDown
      count := s.drawPile.length }
  let players := (playersArray s).map (fun up =>
    { uid := up.1
      status := up.2.status
      position := up.2.position
      hand := up.2.hand.map (fun c =>
        if c.orientation = Orientation.up then toFaceUp s.cardMap c else toFaceDown c)
      isOnline := up.2.isOnline : PlayerView })
  { phase := s.phase
    activePlayerUid := s.activePlayerUid
    actionQueue := []
    discardPile := discardPile
    drawPile := drawPile
    players := players }

/-- Modelled from the spec: `generateDeck` lives in
src/server/src/utils/deck.js, which is not under src/.  The spec's Deck
Generator "produces a fresh deck of N cards with unique identifiers, in a
uniformly shuffled order, plus a full mapping from identifier → payload", as
a pure function.  We model its output as an oracle card list passed in by the
caller, and rebuild the identifier map from it. -/
def generateDeck (deck : List Card) : List Card × List (Nat × Card) :=
  (deck, deck.map (fun c => (c.id, c)))

/-- `drawPile.pop()`: remove and return the top (= last) card. -/
def popDraw (s : GameState) : Option (Card × GameState) :=
  match s.drawPile.getLast? with
  | none => none
  | some c => some (c, { s with drawPile := s.drawPile.dropLast })

/-- Append a card to a player's hand (`players[uid].hand.push(...)`). -/
def pushHand (s : GameState) (uid : String) (card : Card) : GameState :=
  { s with players := updateFirst s.players uid (fun p => { p with hand := p.hand ++ [card] }) }

/-- Deal one card face-down to each uid in order; an empty draw pile aborts
with "Overdraw from draw pile", keeping the mutations made so far. -/
def dealToAll (uids : List String) (s : GameState) : GameState × Option String :=
  match uids with
  | [] => (s, none)
  | uid :: rest =>
    match popDraw s with
    | none => (s, some "Overdraw from draw pile")
    | some (card, s1) => dealToAll rest (pushHand s1 uid { card with orientation := Orientation.down })

/-- The `for (let i = 1; i <= CARDS_PER_HAND; i++)` loop: `n` rounds of
round-robin dealing. -/
def dealRounds : Nat → List String → GameState → GameState × Option String
  | 0, _, s => (s, none)
  | n + 1, uids, s =>
    match dealToAll uids s with
    | (s1, none) => dealRounds n uids s1
    | (s1, some e) => (s1, some e)

/-- The final step of `startGame`: move one more card from the draw pile to
the discard pile, with the same overdraw failure mode as dealing. -/
def seedDiscard (s : GameState) : GameState × Option String :=
  match popDraw s with
  | none => (s, some "Overdraw from draw pile")
  | some (card, s4) => ({ s4 with discardPile := s4.discardPile ++ [card] }, none)

/-- Deal four cards round-robin to the given uids, then seed the discard
pile; an overdraw aborts keeping the mutations made so far. -/
def dealAndSeed (uids : List String) (s : GameState) : GameState × Option String :=
  match dealRounds 4 uids s with
  | (s3, some e) => (s3, some e)
  | (s3, none) => seedDiscard s3

/-- The random starting player: `playersArray[(length * Math.random()) | 0]`,
the `Math.random()` draw modelled as an arbitrary `choice` reduced modulo the
seat count. -/
def startingUid (choice : Nat) (arr : List (String × Player)) : String :=
  match arr[choice % arr.length]? with
  | some up => up.1
  | none => ""

/-- The mutations `startGame` performs before dealing: set the phase, pick
the active player, install the freshly generated deck and card map. -/
def startSetup (deck : List Card) (choice : Nat) (startingPlayer : Option String)
    (s : GameState) : GameState :=
  let s1 := { s with phase := Phase.ingame }
  let arr := playersArray s1
  let gen := generateDeck deck
  { s1 with
    activePlayerUid := some (startingPlayer.getD (startingUid choice arr))
    drawPile := gen.1
    cardMap := gen.2 }

/-- `startGame`: guard on the player count, set the phase, pick the active
player, install a fresh deck, deal 4 cards round-robin, and seed the discard
pile.  `deck` stands for the `generateDeck()` result (see `generateDeck`) and
`choice` for the `Math.random()` draw of the starting player.  As in the
source, a thrown error after the player-count guard leaves every mutation
made before it in place. -/
def startGame (deck : List Card) (choice : Nat) (startingPlayer : Option String)
    (s : GameState) : GameState × Option String :=
  if (playersArray s).length ≤ 1 then
    (s, some "Need at least two players to start game")
  else
    dealAndSeed ((playersArray { s with phase := Phase.ingame }).map Prod.fst)
      (startSetup deck choice startingPlayer s)

/-- Modelled from the spec: the Broadcast/Reject Gateway
(src/server/src/composables/use-socket-connections.js is not under src/).
Per the spec it "delivers a projected view to every connected player or a
rejection to one player"; we model the single outbound call of a command as a
value: either `broadcastUpdate`'s uid → view mapping, or `sendReject`'s
`{id: "reject", commandId, reason}` message addressed to one uid. -/
inductive Effect
  | broadcast (views : List (String × ClientState))
  | reject (uid : String) (commandId : CommandId) (reason : String)
deriving DecidableEq, Repr

/-- The body of `executeCommand`'s try block: the `switch` over the command
identifier.  Returns the state as mutated so far together with `none` on
success or `some message` when the JS code would throw.  A `toggle-ready`
from a uid that is not seated reads `undefined.status`, which throws the
runtime TypeError modelled here by its Node message. -/
def runCommandBody (deck : List Card) (choice : Nat) (s : GameState) (player : String) :
    CommandId → GameState × Option String
  | CommandId.connectToRoom =>
    match lookupP s.players player with
    | none =>
      if s.phase = Phase.pregame then (addPlayer s player, none) else (s, none)
    | some _ =>
      ({ s with players := updateFirst s.players player (fun p => { p with isOnline := true }) }, none)
  | CommandId.disconnectFromRoom =>
    match lookupP s.players player with
    | some _ =>
      if s.phase = Phase.ingame then
        ({ s with players := updateFirst s.players player (fun p => { p with isOnline := false }) }, none)
      else (removePlayer s player, none)
    | none => (s, none)
  | CommandId.toggleReady =>
    if s.phase = Phase.ingame then
      (s, some "Game has already started")
    else
      match lookupP s.players player with
      | none => (s, some "Cannot read properties of undefined (reading 'status')")
      | some _ =>
        let s1 := { s with players := updateFirst s.players player (fun p =>
          { p with status := if p.status = PStatus.waiting then PStatus.ready else PStatus.waiting }) }
        if (playersArray s1).all (fun up => up.2.status = PStatus.ready) then
          startGame deck choice none s1
        else (s1, none)
  | _ => (s, none)

/-- `executeCommand`: run the command body; on success broadcast a freshly
projected view to every known player and append the command to the log, on
any failure send a rejection to the originating player only. -/
def executeCommand (deck : List Card) (choice : Nat) (s : GameState)
    (cc : ClientCommand) : GameState × Effect :=
  match runCommandBody deck choice s cc.player cc.command.id with
  | (s1, none) =>
    ({ s1 with commands := s1.commands ++ [(cc.player, cc.command)] },
      Effect.broadcast (s1.players.map (fun up => (up.1, evalClientState s1 up.1))))
  | (s1, some reason) => (s1, Effect.reject cc.player cc.command.id reason)

/-- A sequence of commands, each arriving with its own deck / randomness
oracle, processed one at a time against the shared state. -/
def runCommands : List (List Card × Nat × ClientCommand) → GameState → GameState
  | [], s => s
  | (deck, choice, cc) :: rest, s => runCommands rest (executeCommand deck choice s cc).1

/-- The eight stub command identifiers together with every identifier outside
the fixed vocabulary: all of them fall through the dispatch switch without
touching the state. -/
def isNoOpCommand : CommandId → Bool
  | CommandId.restartGame => true
  | CommandId.callDutch => true
  | CommandId.drawDiscardPile => true
  | CommandId.drawDrawPile => true
  | CommandId.matchDiscard => true
  | CommandId.peek => true
  | CommandId.replaceDiscard => true
  | CommandId.swap => true
  | CommandId.unknownCmd _ => true
  | _ => false

/-- A projected view conceals hidden information when every face-down hand
card carries no payload and the draw-pile top card, if shown, is face-down
with no payload. -/
def viewConcealsHiddenCards (cs : ClientState) : Bool :=
  cs.players.all (fun pv => pv.hand.all (fun c =>
    c.orientation == Orientation.up || c.payload == none))
  && (match cs.drawPile.topCard with
      | none => true
      | some c => c.payload == none && c.orientation == Orientation.down)

/-! ## Helper lemmas -/

theorem length_playersArray (s : GameState) : (playersArray s).length = s.players.length :=
  List.length_insertionSort posLe s.players

theorem perm_playersArray (s : GameState) : (playersArray s).Perm s.players :=
  List.perm_insertionSort posLe s.players

theorem lookupP_mem {l : List (String × Player)} {u : String} {p : Player}
    (h : lookupP l u = some p) : (u, p) ∈ l := by
  induction l with
  | nil => simp [lookupP] at h
  | cons x rest ih =>
    rcases x with ⟨v, q⟩
    by_cases hv : v = u
    · subst hv
      simp [lookupP] at h
      simp [h]
    · simp [lookupP, hv] at h
      exact List.mem_cons_of_mem _ (ih h)

theorem mem_lookupP {l : List (String × Player)} {u : String} {p : Player}
    (hnd : (l.map Prod.fst).Nodup) (h : (u, p) ∈ l) : lookupP l u = some p := by
  induction l with
  | nil => simp at h
  | cons x rest ih =>
    rcases x with ⟨v, q⟩
    simp only [List.map_cons, List.nodup_cons] at hnd
    rcases List.mem_cons.mp h with heq | hmem
    · cases heq
      simp [lookupP]
    · have hvu : v ≠ u := by
        intro hveq
        apply hnd.1
        rw [hveq]
        exact List.mem_map.mpr ⟨(u, p), hmem, rfl⟩
      simp [lookupP, hvu]
      exact ih hnd.2 hmem

theorem lookupP_eq_none {l : List (String × Player)} {u : String}
    (h : lookupP l u = none) : ∀ x ∈ l, x.1 ≠ u := by
  induction l with
  | nil => simp
  | cons x rest ih =>
    rcases x with ⟨v, q⟩
    by_cases hv : v = u
    · subst hv
      simp [lookupP] at h
    · simp [lookupP, hv] at h
      intro y hy
      rcases List.mem_cons.mp hy with rfl | hmem
      · exact hv
      · exact ih h y hmem

theorem map_fst_updateFirst (l : List (String × Player)) (uid : String) (f : Player → Player) :
    (updateFirst l uid f).map Prod.fst = l.map Prod.fst := by
  induction l with
  | nil => rfl
  | cons x rest ih =>
    rcases x with ⟨v, q⟩
    by_cases hv : v = uid <;> simp [updateFirst, hv, ih]

theorem updateFirst_eq_map {l : List (String × Player)} (uid : String) (f : Player → Player)
    (hnd : (l.map Prod.fst).Nodup) :
    updateFirst l uid f = l.map (fun up => if up.1 = uid then (up.1, f up.2) else up) := by
  induction l with
  | nil => rfl
  | cons x rest ih =>
    rcases x with ⟨v, q⟩
    simp only [List.map_cons, List.nodup_cons] at hnd
    by_cases hv : v = uid
    · subst hv
      have hrest : rest.map (fun up => if up.1 = v then ((up.1, f up.2) : String × Player) else up)
          = rest := by
        have hid : ∀ up ∈ rest,
            (if up.1 = v then ((up.1, f up.2) : String × Player) else up) = up := by
          intro up hup
          have hne : up.1 ≠ v := by
            intro hh
            exact hnd.1 (List.mem_map.mpr ⟨up, hup, hh⟩)
          simp [hne]
        rw [List.map_congr_left hid]
        simp
      simp [updateFirst, hrest]
    · simp [updateFirst, hv, ih hnd.2]

theorem lookupP_updateFirst_self (l : List (String × Player)) (uid : String) (f : Player → Player) :
    lookupP (updateFirst l uid f) uid = (lookupP l uid).map f := by
  induction l with
  | nil => rfl
  | cons x rest ih =>
    rcases x with ⟨v, q⟩
    by_cases hv : v = uid <;> simp [updateFirst, lookupP, hv, ih]

theorem lookupP_updateFirst_ne (l : List (String × Player)) (uid u : String)
    (f : Player → Player) (h : u ≠ uid) :
    lookupP (updateFirst l uid f) u = lookupP l u := by
  induction l with
  | nil => rfl
  | cons x rest ih =>
    rcases x with ⟨v, q⟩
    by_cases hv : v = uid
    · subst hv
      simp [updateFirst, lookupP, Ne.symm h]
    · by_cases hu : v = u <;> simp [updateFirst, lookupP, hv, hu, h, ih]

/-- `dealToAll` touches only the draw pile and the hands. -/
theorem dealToAll_stable (uids : List String) (s : GameState) :
    (dealToAll uids s).1.phase = s.phase ∧
    (dealToAll uids s).1.activePlayerUid = s.activePlayerUid ∧
    (dealToAll uids s).1.actionQueue = s.actionQueue ∧
    (dealToAll uids s).1.cardMap = s.cardMap ∧
    (dealToAll uids s).1.discardPile = s.discardPile ∧
    (dealToAll uids s).1.commands = s.commands := by
  induction uids generalizing s with
  | nil => simp [dealToAll]
  | cons u rest ih =>
    unfold dealToAll popDraw
    cases h : s.drawPile.getLast? with
    | none => simp
    | some c => simpa [pushHand] using ih _

/-- `dealRounds` touches only the draw pile and the hands. -/
theorem dealRounds_stable (n : Nat) (uids : List String) (s : GameState) :
    (dealRounds n uids s).1.phase = s.phase ∧
    (dealRounds n uids s).1.activePlayerUid = s.activePlayerUid ∧
    (dealRounds n uids s).1.actionQueue = s.actionQueue ∧
    (dealRounds n uids s).1.cardMap = s.cardMap ∧
    (dealRounds n uids s).1.discardPile = s.discardPile ∧
    (dealRounds n uids s).1.commands = s.commands := by
  induction n generalizing s with
  | zero => simp [dealRounds]
  | succ n ih =>
    have hd := dealToAll_stable uids s
    unfold dealRounds
    rcases h : dealToAll uids s with ⟨s1, err⟩
    rw [h] at hd
    cases err with
    | none =>
      have := ih s1
      simp only at hd ⊢
      exact ⟨by rw [this.1, hd.1], by rw [this.2.1, hd.2.1], by rw [this.2.2.1, hd.2.2.1],
        by rw [this.2.2.2.1, hd.2.2.2.1], by rw [this.2.2.2.2.1, hd.2.2.2.2.1],
        by rw [this.2.2.2.2.2, hd.2.2.2.2.2]⟩
    | some e => exact hd

/-- Every error raised inside `dealToAll` is an overdraw. -/
theorem dealToAll_error (uids : List String) (s : GameState) {e : String}
    (h : (dealToAll uids s).2 = some e) : e = "Overdraw from draw pile" := by
  induction uids generalizing s with
  | nil => simp [dealToAll] at h
  | cons u rest ih =>
    unfold dealToAll popDraw at h
    cases hc : s.drawPile.getLast? with
    | none => rw [hc] at h; simp at h; exact h.symm
    | some c =>
      rw [hc] at h
      exact ih _ h

/-- Every error raised inside `dealRounds` is an overdraw. -/
theorem dealRounds_error (n : Nat) (uids : List String) (s : GameState) {e : String}
    (h : (dealRounds n uids s).2 = some e) : e = "Overdraw from draw pile" := by
  induction n generalizing s with
  | zero => simp [dealRounds] at h
  | succ n ih =>
    unfold dealRounds at h
    rcases hd : dealToAll uids s with ⟨s1, err⟩
    rw [hd] at h
    cases err with
    | none => exact ih _ h
    | some e1 =>
      simp at h
      have : e1 = "Overdraw from draw pile" := dealToAll_error uids s (by rw [hd])
      rw [← h]
      exact this

/-- `seedDiscard` touches only the draw and discard piles. -/
theorem seedDiscard_stable (s : GameState) :
    (seedDiscard s).1.phase = s.phase ∧
    (seedDiscard s).1.players = s.players ∧
    (seedDiscard s).1.commands = s.commands := by
  unfold seedDiscard popDraw
  cases h : s.drawPile.getLast? <;> simp

/-- `dealAndSeed` preserves the phase. -/
theorem dealAndSeed_phase (uids : List String) (s : GameState) :
    (dealAndSeed uids s).1.phase = s.phase := by
  unfold dealAndSeed
  rcases hd : dealRounds 4 uids s with ⟨s3, err⟩
  have hst := dealRounds_stable 4 uids s
  rw [hd] at hst
  cases err with
  | some e => exact hst.1
  | none => exact ((seedDiscard_stable s3).1).trans hst.1

/-- `dealAndSeed` preserves the command log. -/
theorem dealAndSeed_commands (uids : List String) (s : GameState) :
    (dealAndSeed uids s).1.commands = s.commands := by
  unfold dealAndSeed
  rcases hd : dealRounds 4 uids s with ⟨s3, err⟩
  have hst := dealRounds_stable 4 uids s
  rw [hd] at hst
  cases err with
  | some e => exact hst.2.2.2.2.2
  | none => exact ((seedDiscard_stable s3).2.2).trans hst.2.2.2.2.2

/-- Every error raised inside `dealAndSeed` is an overdraw. -/
theorem dealAndSeed_error (uids : List String) (s : GameState) {e : String}
    (h : (dealAndSeed uids s).2 = some e) : e = "Overdraw from draw pile" := by
  unfold dealAndSeed at h
  rcases hd : dealRounds 4 uids s with ⟨s3, err⟩
  rw [hd] at h
  cases err with
  | some e1 =>
    simp at h
    exact h ▸ dealRounds_error 4 uids s (by rw [hd])
  | none =>
    simp only [seedDiscard] at h
    cases hc : popDraw s3 with
    | none => rw [hc] at h; simp at h; exact h.symm
    | some cs => rw [hc] at h; simp at h

/-- `startGame` never touches the command log. -/
theorem startGame_commands (deck : List Card) (choice : Nat) (sp : Option String)
    (s : GameState) : (startGame deck choice sp s).1.commands = s.commands := by
  unfold startGame
  by_cases hg : (playersArray s).length ≤ 1
  · simp [hg]
  · simp only [hg, if_false]
    rw [dealAndSeed_commands]
    rfl

/-- Every error raised inside `startGame` is the player-count guard or an
overdraw. -/
theorem startGame_error (deck : List Card) (choice : Nat) (sp : Option String)
    (s : GameState) {e : String} (h : (startGame deck choice sp s).2 = some e) :
    e = "Need at least two players to start game" ∨ e = "Overdraw from draw pile" := by
  unfold startGame at h
  by_cases hg : (playersArray s).length ≤ 1
  · simp [hg] at h
    exact Or.inl h.symm
  · simp only [hg, if_false] at h
    exact Or.inr (dealAndSeed_error _ _ h)

/-- When the player-count guard passes, `startGame` always leaves the phase
at `ingame`, whether or not the deal succeeds. -/
theorem startGame_phase (deck : List Card) (choice : Nat) (sp : Option String)
    (s : GameState) (hg : ¬ (playersArray s).length ≤ 1) :
    (startGame deck choice sp s).1.phase = Phase.ingame := by
  unfold startGame
  simp only [hg, if_false]
  rw [dealAndSeed_phase]
  rfl

/-- The command body never touches the command log. -/
theorem runCommandBody_commands (deck : List Card) (choice : Nat) (s : GameState)
    (player : String) (cid : CommandId) :
    (runCommandBody deck choice s player cid).1.commands = s.commands := by
  cases cid with
  | connectToRoom =>
    unfold runCommandBody
    cases h : lookupP s.players player with
    | none => by_cases hp : s.phase = Phase.pregame <;> simp [hp, addPlayer]
    | some p => simp
  | disconnectFromRoom =>
    unfold runCommandBody
    cases h : lookupP s.players player with
    | some p => by_cases hp : s.phase = Phase.ingame <;> simp [hp, removePlayer]
    | none => simp
  | toggleReady =>
    unfold runCommandBody
    by_cases hp : s.phase = Phase.ingame
    · simp [hp]
    · simp only [hp, if_false]
      cases h : lookupP s.players player with
      | none => simp
      | some p =>
        simp only
        by_cases hall : ((playersArray { s with players := updateFirst s.players player (fun p =>
            { p with status := if p.status = PStatus.waiting then PStatus.ready else PStatus.waiting }) }).all
            (fun up => up.2.status = PStatus.ready)) = true
        · simp only [hall, if_true]
          exact startGame_commands _ _ _ _
        · simp [hall]
  | restartGame => rfl
  | callDutch => rfl
  | drawDiscardPile => rfl
  | drawDrawPile => rfl
  | matchDiscard => rfl
  | peek => rfl
  | replaceDiscard => rfl
  | swap => rfl
  | unknownCmd tag => rfl

/-! ## Card conservation -/

/-- All card identifiers across the draw pile, the discard pile and every
hand, in storage order. -/
def locIds (s : GameState) : List Nat :=
  s.drawPile.map Card.id ++ s.discardPile.map Card.id
    ++ (s.players.map (fun up => up.2.hand.map Card.id)).flatten

/-- Every identifier of the deck occurs exactly once across the three card
locations. -/
def dealtExactlyOnce (deck : List Card) (s : GameState) : Bool :=
  (deck.map Card.id).all (fun cid => (locIds s).count cid == 1)

theorem flatten_handIds_updateFirst (c : Card) {l : List (String × Player)} {u : String}
    (hu : u ∈ l.map Prod.fst) :
    ((updateFirst l u (fun p => { p with hand := p.hand ++ [c] })).map
        (fun up => up.2.hand.map Card.id)).flatten.Perm
      (c.id :: (l.map (fun up => up.2.hand.map Card.id)).flatten) := by
  induction l with
  | nil => simp at hu
  | cons x rest ih =>
    rcases x with ⟨v, q⟩
    by_cases hv : v = u
    · simp only [updateFirst, if_pos hv, List.map_cons, List.flatten_cons, List.map_append,
        List.map_cons, List.map_nil]
      rw [List.append_assoc]
      exact List.perm_middle
    · simp only [updateFirst, if_neg hv, List.map_cons, List.flatten_cons]
      have hu2 : u ∈ rest.map Prod.fst := by
        rcases List.mem_map.mp hu with ⟨y, hy, hye⟩
        rcases List.mem_cons.mp hy with heq | hmem
        · exact absurd (by rw [heq] at hye; exact hye) hv
        · exact List.mem_map.mpr ⟨y, hmem, hye⟩
      exact (List.Perm.append_left _ (ih hu2)).trans List.perm_middle

theorem locIds_pushHand (s : GameState) (u : String) (c : Card)
    (hu : u ∈ s.players.map Prod.fst) :
    (locIds (pushHand s u c)).Perm (c.id :: locIds s) := by
  unfold locIds pushHand
  simp only [List.append_assoc]
  exact (List.Perm.append_left _
    ((List.Perm.append_left _ (flatten_handIds_updateFirst c hu)).trans
      List.perm_middle)).trans List.perm_middle

theorem popDraw_players {s : GameState} {c : Card} {s1 : GameState}
    (h : popDraw s = some (c, s1)) : s1.players = s.players := by
  unfold popDraw at h
  cases hcl : s.drawPile.getLast? with
  | none => rw [hcl] at h; simp at h
  | some c0 =>
    rw [hcl] at h
    simp only [Option.some.injEq, Prod.mk.injEq] at h
    rw [← h.2]

theorem locIds_popDraw {s : GameState} {c : Card} {s1 : GameState}
    (h : popDraw s = some (c, s1)) : (locIds s).Perm (c.id :: locIds s1) := by
  unfold popDraw at h
  cases hcl : s.drawPile.getLast? with
  | none => rw [hcl] at h; simp at h
  | some c0 =>
    rw [hcl] at h
    simp only [Option.some.injEq, Prod.mk.injEq] at h
    obtain ⟨hcc, hs1⟩ := h
    rw [← hs1, ← hcc]
    have hdl : s.drawPile.dropLast ++ [c0] = s.drawPile :=
      List.dropLast_append_getLast? c0 hcl
    unfold locIds
    conv_lhs => rw [← hdl]
    simp only [List.map_append, List.map_cons, List.map_nil, List.append_assoc,
      List.singleton_append]
    exact List.perm_middle

theorem dealToAll_players_fst (uids : List String) (s : GameState) :
    (dealToAll uids s).1.players.map Prod.fst = s.players.map Prod.fst := by
  induction uids generalizing s with
  | nil => rfl
  | cons u rest ih =>
    unfold dealToAll popDraw
    cases h : s.drawPile.getLast? with
    | none => simp
    | some c =>
      dsimp only
      rw [ih (pushHand { s with drawPile := s.drawPile.dropLast } u
        { c with orientation := Orientation.down })]
      simpa [pushHand] using map_fst_updateFirst s.players u _

theorem locIds_dealToAll (uids : List String) (s : GameState)
    (hks : ∀ u ∈ uids, u ∈ s.players.map Prod.fst)
    (h : (dealToAll uids s).2 = none) :
    (locIds (dealToAll uids s).1).Perm (locIds s) := by
  induction uids generalizing s with
  | nil => simp [dealToAll]
  | cons u rest ih =>
    unfold dealToAll at h ⊢
    cases hc : popDraw s with
    | none => rw [hc] at h
    | some cs =>
      rcases cs with ⟨c, s1⟩
      rw [hc] at h
      dsimp only at h ⊢
      have hfsts : (pushHand s1 u { c with orientation := Orientation.down }).players.map Prod.fst
          = s.players.map Prod.fst := by
        unfold pushHand
        simp only
        rw [map_fst_updateFirst, popDraw_players hc]
      have hkeys : ∀ v ∈ rest,
          v ∈ (pushHand s1 u { c with orientation := Orientation.down }).players.map Prod.fst := by
        intro v hv
        rw [hfsts]
        exact hks v (List.mem_cons_of_mem u hv)
      have hu1 : u ∈ s1.players.map Prod.fst := by
        rw [popDraw_players hc]
        exact hks u (List.mem_cons_self u rest)
      exact (ih _ hkeys h).trans
        ((locIds_pushHand s1 u _ hu1).trans (locIds_popDraw hc).symm)

theorem locIds_dealRounds (n : Nat) (uids : List String) (s : GameState)
    (hks : ∀ u ∈ uids, u ∈ s.players.map Prod.fst)
    (h : (dealRounds n uids s).2 = none) :
    (locIds (dealRounds n uids s).1).Perm (locIds s) := by
  induction n generalizing s with
  | zero => simp [dealRounds]
  | succ n ih =>
    unfold dealRounds at h ⊢
    rcases hd : dealToAll uids s with ⟨s1, err⟩
    rw [hd] at h
    cases err with
    | some e => simp at h
    | none =>
      dsimp only at h ⊢
      have hkeys1 : ∀ u ∈ uids, u ∈ s1.players.map Prod.fst := by
        intro v hv
        have hfst := dealToAll_players_fst uids s
        rw [hd] at hfst
        simp only at hfst
        rw [hfst]
        exact hks v hv
      have h1 := locIds_dealToAll uids s hks (by rw [hd])
      rw [hd] at h1
      dsimp only at h1
      exact (ih s1 hkeys1 h).trans h1

theorem locIds_seedDiscard (s : GameState) (h : (seedDiscard s).2 = none) :
    (locIds (seedDiscard s).1).Perm (locIds s) := by
  unfold seedDiscard at h ⊢
  cases hc : popDraw s with
  | none => rw [hc] at h
  | some cs =>
    rcases cs with ⟨c, s1⟩
    rw [hc] at h
    dsimp only at h ⊢
    have hp := locIds_popDraw hc
    refine List.Perm.trans ?_ hp.symm
    unfold locIds
    simp only [List.map_append, List.map_cons, List.map_nil, List.append_assoc,
      List.singleton_append]
    exact (List.Perm.append_left _ List.perm_middle).trans List.perm_middle

theorem dealToAll_success (uids : List String) (s : GameState)
    (h : uids.length ≤ s.drawPile.length) :
    (dealToAll uids s).2 = none ∧
    (dealToAll uids s).1.drawPile = s.drawPile.take (s.drawPile.length - uids.length) := by
  induction uids generalizing s with
  | nil => simp [dealToAll, List.take_length]
  | cons u rest ih =>
    unfold dealToAll popDraw
    cases hc : s.drawPile.getLast? with
    | none =>
      rw [List.getLast?_eq_none_iff] at hc
      rw [hc] at h
      simp at h
    | some c =>
      simp only
      have hdl : (pushHand { s with drawPile := s.drawPile.dropLast } u
          { c with orientation := Orientation.down }).drawPile = s.drawPile.dropLast := rfl
      have hlen1 : s.drawPile.dropLast.length = s.drawPile.length - 1 := by
        rw [List.dropLast_eq_take, List.length_take]
        omega
      have hrest : rest.length ≤ (pushHand { s with drawPile := s.drawPile.dropLast } u
          { c with orientation := Orientation.down }).drawPile.length := by
        rw [hdl, hlen1]
        simp at h
        omega
      have hr := ih _ hrest
      refine ⟨hr.1, ?_⟩
      rw [hr.2, hdl, hlen1, List.dropLast_eq_take, List.take_take]
      have hmin : min (s.drawPile.length - 1 - rest.length) (s.drawPile.length - 1)
          = s.drawPile.length - (rest.length + 1) := by omega
      rw [hmin]
      rfl

theorem dealRounds_success (n : Nat) (uids : List String) (s : GameState)
    (h : n * uids.length ≤ s.drawPile.length) :
    (dealRounds n uids s).2 = none ∧
    (dealRounds n uids s).1.drawPile
      = s.drawPile.take (s.drawPile.length - n * uids.length) := by
  induction n generalizing s with
  | zero => simp [dealRounds, List.take_length]
  | succ n ih =>
    rw [Nat.succ_mul] at h
    have h1 : uids.length ≤ s.drawPile.length := by omega
    have hda := dealToAll_success uids s h1
    unfold dealRounds
    rcases hd : dealToAll uids s with ⟨s1, err⟩
    rw [hd] at hda
    dsimp only at hda
    cases err with
    | some e => exact absurd hda.1 (by simp)
    | none =>
      dsimp only
      have hlen1 : s1.drawPile.length = s.drawPile.length - uids.length := by
        rw [hda.2, List.length_take]
        omega
      have hrec : n * uids.length ≤ s1.drawPile.length := by
        rw [hlen1]
        omega
      have hr := ih s1 hrec
      refine ⟨hr.1, ?_⟩
      rw [hr.2, hlen1, hda.2, List.take_take]
      have hmin : min (s.drawPile.length - uids.length - n * uids.length)
          (s.drawPile.length - uids.length)
          = s.drawPile.length - (n * uids.length + uids.length) := by omega
      rw [hmin, Nat.succ_mul]

theorem flatten_nil_of_empty {l : List (String × Player)}
    (h : ∀ up ∈ l, up.2.hand = []) :
    (l.map (fun up => up.2.hand.map Card.id)).flatten = [] := by
  induction l with
  | nil => rfl
  | cons x rest ih =>
    simp only [List.map_cons, List.flatten_cons]
    rw [h x (List.mem_cons_self x rest)]
    simp [ih (fun up hup => h up (List.mem_cons_of_mem x hup))]

/-- With enough cards for every seat, `dealAndSeed` succeeds and permutes the
card identifiers across the three locations without loss or duplication. -/
theorem dealAndSeed_conserve (uids : List String) (s : GameState)
    (hks : ∀ u ∈ uids, u ∈ s.players.map Prod.fst)
    (hlen : 4 * uids.length + 1 ≤ s.drawPile.length) :
    (dealAndSeed uids s).2 = none ∧
    (locIds (dealAndSeed uids s).1).Perm (locIds s) := by
  unfold dealAndSeed
  have hdr := dealRounds_success 4 uids s (by omega)
  rcases hd : dealRounds 4 uids s with ⟨s3, err⟩
  rw [hd] at hdr
  dsimp only at hdr
  cases err with
  | some e => exact absurd hdr.1 (by simp)
  | none =>
    dsimp only at hdr ⊢
    have hlen3 : 1 ≤ s3.drawPile.length := by
      rw [hdr.2, List.length_take]
      omega
    have hseed2 : (seedDiscard s3).2 = none := by
      unfold seedDiscard popDraw
      cases hcl : s3.drawPile.getLast? with
      | none =>
        rw [List.getLast?_eq_none_iff] at hcl
        rw [hcl] at hlen3
        simp at hlen3
      | some c => simp
    have hrounds := locIds_dealRounds 4 uids s hks (by rw [hd])
    rw [hd] at hrounds
    dsimp only at hrounds
    exact ⟨hseed2, (locIds_seedDiscard s3 hseed2).trans hrounds⟩

/-! ## Exact shape of the deal -/

theorem popDraw_eq {s : GameState} {c : Card} {s1 : GameState}
    (h : popDraw s = some (c, s1)) :
    s.drawPile.getLast? = some c ∧ s1.drawPile = s.drawPile.dropLast := by
  unfold popDraw at h
  cases hcl : s.drawPile.getLast? with
  | none => rw [hcl] at h; simp at h
  | some c0 =>
    rw [hcl] at h
    simp only [Option.some.injEq, Prod.mk.injEq] at h
    exact ⟨by rw [h.1], by rw [← h.2]⟩

theorem memOfGetElemQ {α : Type} {l : List α} {i : Nat} {a : α}
    (h : l[i]? = some a) : a ∈ l := by
  obtain ⟨hlt, he⟩ := List.getElem?_eq_some_iff.mp h
  exact he ▸ List.getElem_mem hlt

theorem getD_take {l : List Card} {m i : Nat} (h : i < m) :
    (l.take m).getD i defaultCard = l.getD i defaultCard := by
  simp [List.getD_eq_getElem?_getD, List.getElem?_take, h]

theorem getLast?_eq_getD {l : List Card} {c : Card} (h : l.getLast? = some c) :
    c = l.getD (l.length - 1) defaultCard := by
  rw [List.getLast?_eq_getElem?] at h
  simp [List.getD_eq_getElem?_getD, h]

/-- A uid that is dealt nothing keeps its player entry unchanged. -/
theorem dealToAll_lookup_nonmem (uids : List String) (s : GameState) (u : String)
    (hu : u ∉ uids) :
    lookupP (dealToAll uids s).1.players u = lookupP s.players u := by
  induction uids generalizing s with
  | nil => rfl
  | cons u0 rest ih =>
    obtain ⟨hne, hnm⟩ : u ≠ u0 ∧ u ∉ rest := by
      simpa [List.mem_cons, not_or] using hu
    unfold dealToAll
    cases hc : popDraw s with
    | none => rfl
    | some cs =>
      rcases cs with ⟨c, s1⟩
      dsimp only
      rw [ih _ hnm]
      unfold pushHand
      dsimp only
      rw [lookupP_updateFirst_ne _ _ _ _ hne, popDraw_players hc]

/-- One round of dealing appends to the hand of the uid at index `j` the card
at distance `j` from the top of the draw pile, face-down. -/
theorem dealToAll_lookup_mem (uids : List String) (s : GameState)
    (hnd : uids.Nodup) (hlen : uids.length ≤ s.drawPile.length) :
    ∀ j u, uids[j]? = some u →
      lookupP (dealToAll uids s).1.players u =
        (lookupP s.players u).map (fun p =>
          { p with hand := p.hand ++
              [{ s.drawPile.getD (s.drawPile.length - 1 - j) defaultCard with
                  orientation := Orientation.down }] }) := by
  induction uids generalizing s with
  | nil => intro j u hj; simp at hj
  | cons u0 rest ih =>
    intro j u hj
    unfold dealToAll
    cases hc : popDraw s with
    | none =>
      exfalso
      unfold popDraw at hc
      cases hcl : s.drawPile.getLast? with
      | none =>
        rw [List.getLast?_eq_none_iff] at hcl
        rw [hcl] at hlen
        simp at hlen
      | some c => rw [hcl] at hc; simp at hc
    | some cs =>
      rcases cs with ⟨c, s1⟩
      dsimp only
      obtain ⟨hlast, hs1d⟩ := popDraw_eq hc
      have hs1p := popDraw_players hc
      cases j with
      | zero =>
        have hu : u0 = u := by simpa using hj
        subst hu
        have hnm : u0 ∉ rest := (List.nodup_cons.mp hnd).1
        rw [dealToAll_lookup_nonmem rest _ u0 hnm]
        unfold pushHand
        dsimp only
        rw [lookupP_updateFirst_self, hs1p]
        have hcd : c = s.drawPile.getD (s.drawPile.length - 1 - 0) defaultCard := by
          rw [Nat.sub_zero]
          exact getLast?_eq_getD hlast
        rw [← hcd]
      | succ j1 =>
        have hj1 : rest[j1]? = some u := by simpa using hj
        have hlt : j1 < rest.length := by
          obtain ⟨hh, _⟩ := List.getElem?_eq_some_iff.mp hj1
          exact hh
        have hlen0 : rest.length + 1 ≤ s.drawPile.length := by simpa using hlen
        have hlen1 : rest.length
            ≤ (pushHand s1 u0 { c with orientation := Orientation.down }).drawPile.length := by
          show rest.length ≤ s1.drawPile.length
          rw [hs1d, List.length_dropLast]
          omega
        rw [ih _ (List.nodup_cons.mp hnd).2 hlen1 j1 u hj1]
        have hne : u ≠ u0 := by
          intro he
          exact (List.nodup_cons.mp hnd).1 (he ▸ memOfGetElemQ hj1)
        have hlp : lookupP (pushHand s1 u0 { c with orientation := Orientation.down }).players u
            = lookupP s.players u := by
          unfold pushHand
          dsimp only
          rw [lookupP_updateFirst_ne _ _ _ _ hne, hs1p]
        rw [hlp]
        have hdp : (pushHand s1 u0 { c with orientation := Orientation.down }).drawPile
            = s.drawPile.dropLast := hs1d
        rw [hdp]
        have hcd : s.drawPile.dropLast.getD (s.drawPile.dropLast.length - 1 - j1) defaultCard
            = s.drawPile.getD (s.drawPile.length - 1 - (j1 + 1)) defaultCard := by
          rw [List.length_dropLast, List.dropLast_eq_take]
          rw [getD_take (by omega)]
          congr 1
          omega
        rw [hcd]

/-- `n` rounds of round-robin dealing append to the hand of the uid at index
`j` exactly the cards at top-distance `k·P + j` of the draw pile, face-down,
one per round: every player receives their `k`-th card before any player
receives their `(k+1)`-th. -/
theorem dealRounds_lookup (n : Nat) (uids : List String) (s : GameState)
    (hnd : uids.Nodup) (hlen : n * uids.length ≤ s.drawPile.length) :
    ∀ j u, uids[j]? = some u →
      lookupP (dealRounds n uids s).1.players u =
        (lookupP s.players u).map (fun p =>
          { p with hand := p.hand ++ (List.range n).map (fun k =>
            { s.drawPile.getD (s.drawPile.length - 1 - k * uids.length - j) defaultCard with
                orientation := Orientation.down }) }) := by
  induction n generalizing s with
  | zero =>
    intro j u hj
    unfold dealRounds
    cases hlp : lookupP s.players u <;> simp [hlp]
  | succ n ih =>
    intro j u hj
    have hj_lt : j < uids.length := (List.getElem?_eq_some_iff.mp hj).1
    rw [Nat.succ_mul] at hlen
    have hL1 : uids.length ≤ s.drawPile.length := by omega
    have hda := dealToAll_success uids s hL1
    unfold dealRounds
    rcases hd : dealToAll uids s with ⟨s1, err⟩
    rw [hd] at hda
    dsimp only at hda
    cases err with
    | some e => exact absurd hda.1 (by simp)
    | none =>
      dsimp only
      have hlen1 : n * uids.length ≤ s1.drawPile.length := by
        rw [hda.2, List.length_take]
        omega
      rw [ih s1 hlen1 j u hj]
      have hfirst := dealToAll_lookup_mem uids s hnd hL1 j u hj
      rw [hd] at hfirst
      dsimp only at hfirst
      rw [hfirst, Option.map_map]
      cases hlp : lookupP s.players u with
      | none => rfl
      | some p =>
        dsimp only
        have hhand : (List.range n).map (fun k =>
              { s1.drawPile.getD (s1.drawPile.length - 1 - k * uids.length - j) defaultCard with
                  orientation := Orientation.down })
            = (List.range n).map (fun k =>
              { s.drawPile.getD (s.drawPile.length - 1 - (k + 1) * uids.length - j) defaultCard with
                  orientation := Orientation.down }) := by
          apply List.map_congr_left
          intro k hk
          have hk_lt : k < n := List.mem_range.mp hk
          have hmul : (k + 1) * uids.length ≤ n * uids.length :=
            Nat.mul_le_mul_right uids.length (by omega)
          rw [Nat.succ_mul] at hmul
          have hlen1a : s1.drawPile.length = s.drawPile.length - uids.length := by
            rw [hda.2, List.length_take]
            omega
          have hgd : s1.drawPile.getD (s1.drawPile.length - 1 - k * uids.length - j) defaultCard
              = s.drawPile.getD (s.drawPile.length - 1 - (k + 1) * uids.length - j)
                  defaultCard := by
            rw [hlen1a, hda.2, getD_take (by omega)]
            congr 1
            rw [Nat.succ_mul]
            omega
          rw [hgd]
        have hfin : (p.hand ++ [{ s.drawPile.getD (s.drawPile.length - 1 - j) defaultCard with
              orientation := Orientation.down }]) ++ (List.range n).map (fun k =>
              { s.drawPile.getD (s.drawPile.length - 1 - (k + 1) * uids.length - j) defaultCard with
                  orientation := Orientation.down })
            = p.hand ++ (List.range (n + 1)).map (fun k =>
              { s.drawPile.getD (s.drawPile.length - 1 - k * uids.length - j) defaultCard with
                  orientation := Orientation.down }) := by
          rw [List.append_assoc, List.singleton_append]
          congr 1
          rw [List.range_succ_eq_map, List.map_cons, List.map_map]
          congr 1
          rw [Nat.zero_mul, Nat.sub_zero]
        rw [hhand]
        simp only [Option.map_some', Function.comp_apply, Option.some.injEq,
          Player.mk.injEq, List.append_nil, true_and, and_true]
        exact hfin

/-- The full shape of a successful deal-and-seed: the draw pile keeps the
bottom `length − (4·P + 1)` cards, the discard pile gains exactly the
`(4·P + 1)`-th card from the top, and every dealt player's hand gains their
four round-robin cards face-down. -/
theorem dealAndSeed_spec (uids : List String) (s : GameState)
    (hnd : uids.Nodup) (hlen : 4 * uids.length + 1 ≤ s.drawPile.length) :
    (dealAndSeed uids s).2 = none
    ∧ (dealAndSeed uids s).1.drawPile
        = s.drawPile.take (s.drawPile.length - (4 * uids.length + 1))
    ∧ (dealAndSeed uids s).1.discardPile
        = s.discardPile
            ++ [s.drawPile.getD (s.drawPile.length - (4 * uids.length + 1)) defaultCard]
    ∧ ∀ j u, uids[j]? = some u →
        lookupP (dealAndSeed uids s).1.players u =
          (lookupP s.players u).map (fun p =>
            { p with hand := p.hand ++ (List.range 4).map (fun k =>
              { s.drawPile.getD (s.drawPile.length - 1 - k * uids.length - j) defaultCard with
                  orientation := Orientation.down }) }) := by
  unfold dealAndSeed
  have hdr := dealRounds_success 4 uids s (by omega)
  rcases hd : dealRounds 4 uids s with ⟨s3, err⟩
  rw [hd] at hdr
  dsimp only at hdr
  cases err with
  | some e => exact absurd hdr.1 (by simp)
  | none =>
    dsimp only
    have hst := dealRounds_stable 4 uids s
    rw [hd] at hst
    dsimp only at hst
    have hpop : s3.drawPile.getLast?
        = some (s.drawPile.getD (s.drawPile.length - (4 * uids.length + 1)) defaultCard) := by
      rw [hdr.2, List.getLast?_take, if_neg (by omega)]
      have h1 : s.drawPile[s.drawPile.length - 4 * uids.length - 1]?
          = some (s.drawPile.getD (s.drawPile.length - (4 * uids.length + 1)) defaultCard) := by
        have harg : s.drawPile.length - 4 * uids.length - 1
            = s.drawPile.length - (4 * uids.length + 1) := by omega
        rw [harg, List.getD_eq_getElem?_getD]
        cases hx : s.drawPile[s.drawPile.length - (4 * uids.length + 1)]? with
        | none =>
          rw [List.getElem?_eq_none_iff] at hx
          omega
        | some x => rfl
      rw [h1]
      rfl
    unfold seedDiscard popDraw
    cases hcl : s3.drawPile.getLast? with
    | none => rw [hcl] at hpop; simp at hpop
    | some c =>
      rw [hcl] at hpop
      have hceq : c = s.drawPile.getD (s.drawPile.length - (4 * uids.length + 1)) defaultCard := by
        injection hpop
      dsimp only
      refine ⟨rfl, ?_, ?_, ?_⟩
      · show s3.drawPile.dropLast = _
        rw [List.dropLast_eq_take, hdr.2, List.take_take, List.length_take]
        congr 1
        omega
      · show s3.discardPile ++ [c] = _
        rw [hst.2.2.2.2.1, hceq]
      · intro j u hj
        have hlk := dealRounds_lookup 4 uids s hnd (by omega) j u hj
        rw [hd] at hlk
        dsimp only at hlk
        exact hlk

/-! ## Roster positions -/

/-- Positions form a dense 0-based permutation and uids are pairwise
distinct. -/
def rosterInv (s : GameState) : Prop :=
  (s.players.map Prod.fst).Nodup
  ∧ (s.players.map (fun up => up.2.position)).Perm (List.range s.players.length)

/-- Strict position order. -/
def posLt (a b : String × Player) : Prop := a.2.position < b.2.position

theorem sorted_playersArray (s : GameState) : (playersArray s).Pairwise posLe :=
  List.sorted_insertionSort posLe s.players

theorem idxOf_getElem {l : List String} (hnd : l.Nodup) (i : Nat) (hi : i < l.length) :
    idxOf l l[i] = i := by
  induction l generalizing i with
  | nil => simp at hi
  | cons x rest ih =>
    cases i with
    | zero => simp [idxOf]
    | succ i1 =>
      have hi1 : i1 < rest.length := by simpa using hi
      have hx : x ≠ rest[i1] := by
        intro he
        exact (List.nodup_cons.mp hnd).1 (he ▸ List.getElem_mem hi1)
      simp only [List.getElem_cons_succ, idxOf]
      rw [if_neg hx, ih (List.nodup_cons.mp hnd).2 i1 hi1]

theorem map_idxOf_self {l : List String} (hnd : l.Nodup) :
    l.map (fun x => idxOf l x) = List.range l.length := by
  induction l with
  | nil => rfl
  | cons x rest ih =>
    simp only [List.map_cons, idxOf, if_pos rfl, List.length_cons, List.range_succ_eq_map]
    congr 1
    have hcg : ∀ y ∈ rest, (if x = y then 0 else idxOf rest y + 1) = idxOf rest y + 1 := by
      intro y hy
      rw [if_neg]
      intro he
      exact (List.nodup_cons.mp hnd).1 (he ▸ hy)
    rw [List.map_congr_left hcg, show (fun y => idxOf rest y + 1)
      = (Nat.succ ∘ fun y => idxOf rest y) from rfl, ← List.map_map,
      ih (List.nodup_cons.mp hnd).2]

/-- Two strictly position-sorted lists with the same elements are equal. -/
theorem perm_pairwise_lt_eq : ∀ {l1 l2 : List (String × Player)}, l1.Perm l2 →
    l1.Pairwise posLt → l2.Pairwise posLt → l1 = l2 := by
  intro l1
  induction l1 with
  | nil =>
    intro l2 hp _ _
    exact (List.Perm.eq_nil hp.symm).symm
  | cons a t1 ih =>
    intro l2 hp h1 h2
    cases l2 with
    | nil => exact absurd hp (by simp)
    | cons b t2 =>
      by_cases hab : a = b
      · subst hab
        rw [ih hp.cons_inv (List.pairwise_cons.mp h1).2 (List.pairwise_cons.mp h2).2]
      · exfalso
        have ha2 : a ∈ b :: t2 := hp.subset (List.mem_cons_self a t1)
        have ha2t : a ∈ t2 := by
          rcases List.mem_cons.mp ha2 with h | h
          · exact absurd h hab
          · exact h
        have hb1 : b ∈ a :: t1 := hp.symm.subset (List.mem_cons_self b t2)
        have hb1t : b ∈ t1 := by
          rcases List.mem_cons.mp hb1 with h | h
          · exact absurd h.symm hab
          · exact h
        have hlt1 : posLt a b := (List.pairwise_cons.mp h1).1 b hb1t
        have hlt2 : posLt b a := (List.pairwise_cons.mp h2).1 a ha2t
        unfold posLt at hlt1 hlt2
        omega

/-- A position-sorted list with pairwise-distinct positions is strictly
sorted. -/
theorem pairwise_lt_of_sorted_nodup {l : List (String × Player)}
    (hs : l.Pairwise posLe)
    (hnd : (l.map (fun up => up.2.position)).Nodup) :
    l.Pairwise posLt := by
  have hne : l.Pairwise (fun a b => a.2.position ≠ b.2.position) :=
    List.pairwise_map.mp hnd
  exact (hs.and hne).imp (fun hab => Nat.lt_of_le_of_ne hab.1 hab.2)

theorem positions_updateFirst (l : List (String × Player)) (uid : String)
    (f : Player → Player) (hf : ∀ p, (f p).position = p.position) :
    (updateFirst l uid f).map (fun up => up.2.position)
      = l.map (fun up => up.2.position) := by
  induction l with
  | nil => rfl
  | cons x rest ih =>
    rcases x with ⟨v, q⟩
    by_cases hv : v = uid <;> simp [updateFirst, hv, ih, hf]

/-- Seating a fresh player keeps positions a dense permutation. -/
theorem rosterInv_addPlayer {s : GameState} {uid : String}
    (hinv : rosterInv s) (habs : lookupP s.players uid = none) :
    rosterInv (addPlayer s uid) := by
  obtain ⟨hnd, hperm⟩ := hinv
  have hnotin : ∀ x ∈ s.players, x.1 ≠ uid := lookupP_eq_none habs
  have hany : (s.players.any (fun up => decide (up.1 = uid))) = false := by
    rw [List.any_eq_false]
    intro x hx
    simpa using hnotin x hx
  unfold addPlayer assocSet rosterInv
  dsimp only
  simp only [hany]
  rw [if_neg (show ¬ (false = true) by simp)]
  constructor
  · rw [List.map_append]
    simp only [List.map_cons, List.map_nil]
    rw [List.nodup_append]
    refine ⟨hnd, List.nodup_singleton _, ?_⟩
    intro x hx
    simp only [List.mem_singleton]
    intro hxe
    rcases List.mem_map.mp hx with ⟨y, hy, hye⟩
    exact hnotin y hy (by rw [hye, hxe])
  · rw [List.map_append, List.length_append]
    simp only [List.map_cons, List.map_nil, List.length_cons, List.length_nil]
    rw [length_playersArray]
    rw [List.range_succ]
    exact hperm.append (List.Perm.refl _)

/-- Removing a player and renumbering keeps positions a dense permutation. -/
theorem rosterInv_removePlayer {s : GameState} {uid : String} (hinv : rosterInv s) :
    rosterInv (removePlayer s uid) := by
  obtain ⟨hnd, _⟩ := hinv
  have hnd1 : ((s.players.filter (fun up => !(up.1 = uid : Bool))).map Prod.fst).Nodup :=
    List.Nodup.sublist (List.Sublist.map Prod.fst (List.filter_sublist _)) hnd
  unfold removePlayer rosterInv
  dsimp only
  set ps1 := s.players.filter (fun up => !(up.1 = uid : Bool)) with hps1
  set karr := (playersArray { s with players := ps1 }).map Prod.fst with hkarr
  constructor
  · rw [List.map_map]
    exact hnd1
  · rw [List.map_map, List.length_map]
    have hkp : (ps1.map Prod.fst).Perm karr :=
      ((perm_playersArray { s with players := ps1 }).map Prod.fst).symm
    have hKnd : karr.Nodup := hkp.nodup_iff.mp hnd1
    have h1 := hkp.map (fun x => idxOf karr x)
    rw [map_idxOf_self hKnd] at h1
    have hlenk : karr.length = ps1.length := by
      rw [hkarr, List.length_map, length_playersArray]
    rw [hlenk, List.map_map] at h1
    exact h1

theorem length_updateFirst (l : List (String × Player)) (uid : String) (f : Player → Player) :
    (updateFirst l uid f).length = l.length := by
  induction l with
  | nil => rfl
  | cons x rest ih =>
    rcases x with ⟨v, q⟩
    by_cases hv : v = uid <;> simp [updateFirst, hv, ih]

theorem map_fst_filter_key (l : List (String × Player)) (uid : String) :
    ((l.filter (fun up => !(up.1 = uid : Bool))).map Prod.fst)
      = (l.map Prod.fst).filter (fun u => !(u = uid : Bool)) := by
  induction l with
  | nil => rfl
  | cons x rest ih => by_cases hx : x.1 = uid <;> simp [List.filter_cons, hx, ih]

/-- A connect or disconnect command. -/
def isConnDisc (cc : ClientCommand) : Prop :=
  cc.command.id = CommandId.connectToRoom ∨ cc.command.id = CommandId.disconnectFromRoom

instance (cc : ClientCommand) : Decidable (isConnDisc cc) :=
  inferInstanceAs (Decidable (cc.command.id = CommandId.connectToRoom
    ∨ cc.command.id = CommandId.disconnectFromRoom))

theorem rosterInv_body (deck : List Card) (choice : Nat) (s : GameState) (player : String)
    (cid : CommandId)
    (hcd : cid = CommandId.connectToRoom ∨ cid = CommandId.disconnectFromRoom)
    (hinv : rosterInv s) :
    rosterInv (runCommandBody deck choice s player cid).1 := by
  rcases hcd with rfl | rfl
  · unfold runCommandBody
    cases hl : lookupP s.players player with
    | none =>
      dsimp only
      by_cases hp : s.phase = Phase.pregame
      · rw [if_pos hp]
        exact rosterInv_addPlayer hinv hl
      · rw [if_neg hp]
        exact hinv
    | some p =>
      dsimp only
      constructor
      · rw [map_fst_updateFirst]
        exact hinv.1
      · rw [positions_updateFirst s.players player
          (fun p => { p with isOnline := true }) (fun p => rfl), length_updateFirst]
        exact hinv.2
  · unfold runCommandBody
    cases hl : lookupP s.players player with
    | some p =>
      dsimp only
      by_cases hp : s.phase = Phase.ingame
      · rw [if_pos hp]
        constructor
        · rw [map_fst_updateFirst]
          exact hinv.1
        · rw [positions_updateFirst s.players player
            (fun p => { p with isOnline := false }) (fun p => rfl), length_updateFirst]
          exact hinv.2
      · rw [if_neg hp]
        exact rosterInv_removePlayer hinv
    | none =>
      dsimp only
      exact hinv

theorem rosterInv_exec (deck : List Card) (choice : Nat) (s : GameState)
    (cc : ClientCommand) (hcd : isConnDisc cc) (hinv : rosterInv s) :
    rosterInv (executeCommand deck choice s cc).1 := by
  have hb := rosterInv_body deck choice s cc.player cc.command.id hcd hinv
  unfold executeCommand
  rcases hbody : runCommandBody deck choice s cc.player cc.command.id with ⟨s1, err⟩
  rw [hbody] at hb
  cases err with
  | none => exact hb
  | some r => exact hb

theorem rosterInv_runCommands (trace : List (List Card × Nat × ClientCommand))
    (s : GameState) (h : ∀ step ∈ trace, isConnDisc step.2.2) (hinv : rosterInv s) :
    rosterInv (runCommands trace s) := by
  induction trace generalizing s with
  | nil => exact hinv
  | cons step rest ih =>
    rcases step with ⟨d, ch, cc⟩
    exact ih _ (fun st hst => h st (List.mem_cons_of_mem _ hst))
      (rosterInv_exec d ch s cc (h _ (List.mem_cons_self _ _)) hinv)

/-- `removePlayer` keeps the remaining players in their old relative order:
the renumbered roster's uid sequence is the old sequence with the removed uid
filtered out. -/
theorem playersArray_removePlayer (s : GameState) (uid : String) (hinv : rosterInv s) :
    (playersArray (removePlayer s uid)).map Prod.fst
      = ((playersArray s).map Prod.fst).filter (fun u => !(u = uid : Bool)) := by
  obtain ⟨hnd, hperm⟩ := hinv
  have hposnd : (s.players.map (fun up => up.2.position)).Nodup :=
    hperm.nodup_iff.mpr (List.nodup_range _)
  have hinv2 : rosterInv (removePlayer s uid) := rosterInv_removePlayer ⟨hnd, hperm⟩
  set ps1 := s.players.filter (fun up => !(up.1 = uid : Bool)) with hps1
  have hnd1 : (ps1.map Prod.fst).Nodup :=
    List.Nodup.sublist (List.Sublist.map Prod.fst (List.filter_sublist _)) hnd
  have hpos1 : (ps1.map (fun up => up.2.position)).Nodup :=
    List.Nodup.sublist (List.Sublist.map _ (List.filter_sublist _)) hposnd
  set arr := playersArray { s with players := ps1 } with harr
  set karr := arr.map Prod.fst with hkarr
  have harrp : arr.Perm ps1 := perm_playersArray _
  have hKnd : karr.Nodup := (harrp.map Prod.fst).nodup_iff.mpr hnd1
  set g := fun up : String × Player =>
    (up.1, { up.2 with position := idxOf karr up.1 }) with hg
  have hRP : removePlayer s uid = { s with players := ps1.map g } := rfl
  -- the sorted result is exactly the renumbered old order
  have harrlt : arr.Pairwise posLt :=
    pairwise_lt_of_sorted_nodup (sorted_playersArray _)
      (((harrp.map (fun up => up.2.position)).nodup_iff).mpr hpos1)
  have harrRlt : (arr.map g).Pairwise posLt := by
    rw [List.pairwise_iff_getElem]
    intro i j hi hj hij
    unfold posLt
    have hi' : i < arr.length := by simpa using hi
    have hj' : j < arr.length := by simpa using hj
    rw [List.getElem_map, List.getElem_map]
    show idxOf karr arr[i].1 < idxOf karr arr[j].1
    have hli : i < karr.length := by rw [hkarr, List.length_map]; exact hi'
    have hlj : j < karr.length := by rw [hkarr, List.length_map]; exact hj'
    have hki : arr[i].1 = karr[i] := (List.getElem_map Prod.fst).symm
    have hkj : arr[j].1 = karr[j] := (List.getElem_map Prod.fst).symm
    rw [hki, hkj, idxOf_getElem hKnd i hli, idxOf_getElem hKnd j hlj]
    exact hij
  have hSRperm : (playersArray (removePlayer s uid)).Perm (arr.map g) := by
    rw [hRP]
    exact (perm_playersArray _).trans (harrp.symm.map g)
  have hSRlt : (playersArray (removePlayer s uid)).Pairwise posLt := by
    apply pairwise_lt_of_sorted_nodup (sorted_playersArray _)
    have hpos2 := hinv2.2
    rw [hRP]
    refine (((perm_playersArray _).map (fun up => up.2.position)).nodup_iff).mpr ?_
    exact hpos2.nodup_iff.mpr (List.nodup_range _)
  have hSR : playersArray (removePlayer s uid) = arr.map g :=
    perm_pairwise_lt_eq hSRperm hSRlt harrRlt
  -- keys of the renumbered order are the keys of `arr`
  have hkeysR : (arr.map g).map Prod.fst = karr := by
    rw [List.map_map, hkarr]
    exact List.map_congr_left (fun up _ => rfl)
  -- `arr` is the old sorted order with the uid filtered out
  have hF : arr = (playersArray s).filter (fun up => !(up.1 = uid : Bool)) := by
    apply perm_pairwise_lt_eq ?_ harrlt
      (List.Pairwise.filter _ (pairwise_lt_of_sorted_nodup (sorted_playersArray s)
        ((((perm_playersArray s).map (fun up => up.2.position)).nodup_iff).mpr hposnd)))
    exact harrp.trans ((perm_playersArray s).filter _).symm
  rw [hSR, hkeysR, hkarr, hF, map_fst_filter_key]

/-! ## Theorems -/

/-- Claim C10: projection is a pure, deterministic function of the state
alone.  In the embedding `evalClientState` is a pure function (the JS body
only reads the reactive state, never writes it), so evaluating it twice on
the same state trivially yields the same view; the substantive content
proved here is that the view does not depend on the viewer argument at all,
hence every recipient of a broadcast receives the identical view. -/
theorem claim_C10 (s : GameState) (u v : String) :
    evalClientState s u = evalClientState s v := rfl

/-- Claim C2: for every state and every viewer, the projected view carries no
payload of any face-down hand card and no payload of any draw-pile card: such
cards are reduced to identifier plus orientation. -/
theorem claim_C2 (s : GameState) (player : String) :
    viewConcealsHiddenCards (evalClientState s player) = true := by
  unfold viewConcealsHiddenCards evalClientState
  apply Bool.and_eq_true_iff.mpr
  constructor
  · simp only [List.all_eq_true]
    intro pv hpv
    simp only [List.mem_map] at hpv
    obtain ⟨up, _, rfl⟩ := hpv
    simp only [List.all_eq_true]
    intro vc hvc
    simp only [List.mem_map] at hvc
    obtain ⟨c, _, rfl⟩ := hvc
    by_cases hor : c.orientation = Orientation.up
    · simp only [if_pos hor, toFaceUp]
      cases lookupCard s.cardMap c.id <;> simp
    · simp only [if_neg hor, toFaceDown]
      simp
  · cases hc : s.drawPile.getLast? <;> simp [hc, toFaceDown]

/-- Claim C9: every stub command identifier and every identifier outside the
vocabulary succeeds as a pure no-op: the state is unchanged except for the
command-log append, and a freshly projected view is broadcast to every known
player. -/
theorem claim_C9 (deck : List Card) (choice : Nat) (s : GameState) (player : String)
    (cmd : Command) (h : isNoOpCommand cmd.id = true) :
    executeCommand deck choice s ⟨player, cmd⟩ =
      ({ s with commands := s.commands ++ [(player, cmd)] },
        Effect.broadcast (s.players.map (fun up => (up.1, evalClientState s up.1)))) := by
  cases cmd with
  | mk cid => cases cid <;> simp_all [isNoOpCommand, executeCommand, runCommandBody]

/-- The phase of the state after `executeCommand` is the phase left by the
command body (the log append does not touch it). -/
theorem executeCommand_phase (deck : List Card) (choice : Nat) (s : GameState)
    (cc : ClientCommand) :
    (executeCommand deck choice s cc).1.phase =
      (runCommandBody deck choice s cc.player cc.command.id).1.phase := by
  unfold executeCommand
  rcases h : runCommandBody deck choice s cc.player cc.command.id with ⟨s1, err⟩
  cases err <;> simp

/-- Once the game is in phase `ingame`, no command body moves it back. -/
theorem runCommandBody_phase_ingame (deck : List Card) (choice : Nat) (s : GameState)
    (player : String) (cid : CommandId) (h : s.phase = Phase.ingame) :
    (runCommandBody deck choice s player cid).1.phase = Phase.ingame := by
  cases cid with
  | connectToRoom =>
    unfold runCommandBody
    cases hl : lookupP s.players player with
    | none => simp [h]
    | some p => simp [h]
  | disconnectFromRoom =>
    unfold runCommandBody
    cases hl : lookupP s.players player with
    | some p => simp [h]
    | none => simp [h]
  | toggleReady =>
    unfold runCommandBody
    simp [h]
  | restartGame => exact h
  | callDutch => exact h
  | drawDiscardPile => exact h
  | drawDrawPile => exact h
  | matchDiscard => exact h
  | peek => exact h
  | replaceDiscard => exact h
  | swap => exact h
  | unknownCmd tag => exact h

/-- Once the game is in phase `ingame`, no command moves it back. -/
theorem executeCommand_ingame (deck : List Card) (choice : Nat) (s : GameState)
    (cc : ClientCommand) (h : s.phase = Phase.ingame) :
    (executeCommand deck choice s cc).1.phase = Phase.ingame := by
  rw [executeCommand_phase]
  exact runCommandBody_phase_ingame _ _ _ _ _ h

/-- Claim C8: every failure raised while processing a command is caught at
the single dispatch boundary and converted into a rejection carrying the
originating player and command identifier; a failing command appends nothing
to the command log, and the single outbound effect being that rejection, no
broadcast is emitted to anyone.  The second conjunct covers the unguarded
lookup failure of a `toggle-ready` issued by a uid not present in
`players`. -/
theorem claim_C8 (deck : List Card) (choice : Nat) (s : GameState) (cc : ClientCommand)
    (u : String) (cid : CommandId) (reason : String) :
    ((executeCommand deck choice s cc).2 = Effect.reject u cid reason →
      u = cc.player ∧ cid = cc.command.id ∧
      (executeCommand deck choice s cc).1.commands = s.commands)
    ∧ (s.phase = Phase.pregame → lookupP s.players cc.player = none →
        cc.command.id = CommandId.toggleReady →
        (executeCommand deck choice s cc).2 =
          Effect.reject cc.player CommandId.toggleReady
            "Cannot read properties of undefined (reading 'status')") := by
  constructor
  · intro hrej
    have hcmds := runCommandBody_commands deck choice s cc.player cc.command.id
    unfold executeCommand at hrej ⊢
    rcases hbody : runCommandBody deck choice s cc.player cc.command.id with ⟨s1, err⟩
    rw [hbody] at hrej hcmds
    cases err with
    | none => simp at hrej
    | some r =>
      simp only at hrej hcmds ⊢
      injection hrej with h1 h2 h3
      exact ⟨h1.symm, h2.symm, hcmds⟩
  · intro hph hlk hcid
    unfold executeCommand
    rw [hcid]
    simp [runCommandBody, hph, hlk]

/-- Witness for C8: on the empty initial roster, `toggle-ready` from an
unknown uid is rejected with the lookup-failure reason, addressed to that
uid, and the log stays empty. -/
theorem claim_C8_witness :
    (executeCommand [] 0 initGameState ⟨"a", ⟨CommandId.toggleReady⟩⟩).2 =
      Effect.reject "a" CommandId.toggleReady
        "Cannot read properties of undefined (reading 'status')"
    ∧ (executeCommand [] 0 initGameState ⟨"a", ⟨CommandId.toggleReady⟩⟩).1.commands = [] := by
  have h := claim_C8 [] 0 initGameState ⟨"a", ⟨CommandId.toggleReady⟩⟩ "a"
    CommandId.toggleReady "Cannot read properties of undefined (reading 'status')"
  have h2 := h.2 rfl rfl rfl
  exact ⟨h2, (h.1 h2).2.2⟩

/-- Claim C5: with fewer than two seated players, `startGame` fails with the
reason "Need at least two players to start game" leaving the state untouched,
and the same failure reached through a `toggle-ready` auto-start is surfaced
as a rejection to the toggling player with the phase still `pregame`. -/
theorem claim_C5 (deck : List Card) (choice : Nat) (sp : Option String) (s : GameState)
    (player : String) (pl : Player) :
    (s.players.length ≤ 1 →
      startGame deck choice sp s = (s, some "Need at least two players to start game"))
    ∧ (s.phase = Phase.pregame → s.players.length ≤ 1 →
        lookupP s.players player = some pl → pl.status = PStatus.waiting →
        (executeCommand deck choice s ⟨player, ⟨CommandId.toggleReady⟩⟩).2 =
          Effect.reject player CommandId.toggleReady "Need at least two players to start game"
        ∧ (executeCommand deck choice s ⟨player, ⟨CommandId.toggleReady⟩⟩).1.phase
            = Phase.pregame) := by
  constructor
  · intro hle
    unfold startGame
    rw [if_pos]
    rw [length_playersArray]
    exact hle
  · intro hph hle hlk hst
    rcases s with ⟨ph, au, aq, cm, dp, dw, pls, cmds⟩
    simp only at hph hle hlk ⊢
    subst hph
    rcases pls with _ | ⟨⟨v, q⟩, rest⟩
    · simp [lookupP] at hlk
    · rcases rest with _ | ⟨y, rest2⟩
      · by_cases hv : v = player
        · subst hv
          simp [lookupP] at hlk
          subst hlk
          simp [executeCommand, runCommandBody, updateFirst, hst, playersArray,
            List.insertionSort, List.orderedInsert, startGame, lookupP]
        · simp [lookupP, hv] at hlk
      · simp at hle

/-- Witness for C5: a lone seated waiting player. -/
def exSoloState : GameState :=
  { initGameState with
    players := [("a", { status := PStatus.waiting, position := 0, hand := [], isOnline := true })] }

/-- Witness for C5: with a single seated player, direct `startGame` fails
leaving the state untouched, and the auto-start reached by that player's
`toggle-ready` is rejected with the phase still `pregame`. -/
theorem claim_C5_witness :
    exSoloState.players.length ≤ 1
    ∧ startGame [] 0 none exSoloState = (exSoloState, some "Need at least two players to start game")
    ∧ (executeCommand [] 0 exSoloState ⟨"a", ⟨CommandId.toggleReady⟩⟩).2 =
        Effect.reject "a" CommandId.toggleReady "Need at least two players to start game"
    ∧ (executeCommand [] 0 exSoloState ⟨"a", ⟨CommandId.toggleReady⟩⟩).1.phase
        = Phase.pregame := by
  have h := claim_C5 [] 0 none exSoloState "a"
    { status := PStatus.waiting, position := 0, hand := [], isOnline := true }
  have h2 := h.2 rfl (by decide) (by decide) rfl
  exact ⟨by decide, h.1 (by decide), h2.1, h2.2⟩

/-- Claim C4: the phase is one-directional over any command sequence (once
`ingame`, always `ingame`); a `toggle-ready` arriving when the game is
already `ingame` is rejected with reason "Game has already started" and
leaves the state exactly unchanged; and the `toggle-ready` that completes the
roster consensus of N ≥ 2 seated players moves the phase from `pregame` to
`ingame`. -/
theorem claim_C4 (trace : List (List Card × Nat × ClientCommand)) (deck : List Card)
    (choice : Nat) (s : GameState) (player : String) (pl : Player) :
    (s.phase = Phase.ingame → (runCommands trace s).phase = Phase.ingame)
    ∧ (s.phase = Phase.ingame →
        executeCommand deck choice s ⟨player, ⟨CommandId.toggleReady⟩⟩ =
          (s, Effect.reject player CommandId.toggleReady "Game has already started"))
    ∧ (s.phase = Phase.pregame → (s.players.map Prod.fst).Nodup →
        2 ≤ s.players.length → lookupP s.players player = some pl →
        pl.status = PStatus.waiting →
        (∀ up ∈ s.players, up.1 ≠ player → up.2.status = PStatus.ready) →
        (executeCommand deck choice s ⟨player, ⟨CommandId.toggleReady⟩⟩).1.phase
          = Phase.ingame) := by
  refine ⟨?_, ?_, ?_⟩
  · intro h
    induction trace generalizing s with
    | nil => exact h
    | cons step rest ih =>
      rcases step with ⟨d, ch, cc⟩
      exact ih _ (executeCommand_ingame d ch s cc h)
  · intro h
    unfold executeCommand
    simp [runCommandBody, h]
  · intro hph hnd hlen hlk hst hall
    rw [executeCommand_phase]
    have hnot : ¬ (s.phase = Phase.ingame) := by
      rw [hph]
      intro hh
      cases hh
    simp only [runCommandBody]
    rw [if_neg hnot, hlk]
    dsimp only
    set flip := fun p : Player =>
      { p with status := if p.status = PStatus.waiting then PStatus.ready else PStatus.waiting }
      with hflip
    set s1 : GameState := { s with players := updateFirst s.players player flip } with hs1
    have hmapped : s1.players =
        s.players.map (fun up => if up.1 = player then (up.1, flip up.2) else up) := by
      rw [hs1]
      exact updateFirst_eq_map player flip hnd
    have hallready : ((playersArray s1).all fun up =>
        decide (up.2.status = PStatus.ready)) = true := by
      rw [List.all_eq_true]
      intro up hup
      rw [decide_eq_true_eq]
      have hup2 : up ∈ s1.players := (perm_playersArray s1).mem_iff.mp hup
      rw [hmapped] at hup2
      obtain ⟨x, hx, hxe⟩ := List.mem_map.mp hup2
      by_cases hxp : x.1 = player
      · have hlx : lookupP s.players x.1 = some x.2 := mem_lookupP hnd hx
        rw [hxp, hlk] at hlx
        have hx2 : x.2 = pl := by injection hlx with hh; exact hh.symm
        rw [← hxe]
        simp [hxp, hflip, hx2, hst]
      · have := hall x hx hxp
        rw [← hxe]
        simp [hxp, this]
    rw [if_pos hallready]
    apply startGame_phase
    rw [length_playersArray, hmapped, List.length_map]
    omega

/-- Witness for C4: a state already `ingame` for the first two conjuncts. -/
def exIngameState : GameState :=
  { initGameState with
    phase := Phase.ingame
    players := [("a", { status := PStatus.ready, position := 0, hand := [], isOnline := true })] }

/-- Witness for C4: a pregame two-player state where `"b"` is ready and
`"a"` is waiting, so that `"a"`'s toggle completes the consensus. -/
def exTwoAlmostReady : GameState :=
  { initGameState with
    players :=
      [("a", { status := PStatus.waiting, position := 0, hand := [], isOnline := true }),
       ("b", { status := PStatus.ready, position := 1, hand := [], isOnline := true })] }

/-- Witness for C4 at concrete states: phase stays `ingame` over a trace,
an `ingame` `toggle-ready` is rejected without any state change, and the
consensus-completing `toggle-ready` flips the phase to `ingame`. -/
theorem claim_C4_witness :
    (runCommands [([], 0, ⟨"b", ⟨CommandId.connectToRoom⟩⟩)] exIngameState).phase = Phase.ingame
    ∧ executeCommand [] 0 exIngameState ⟨"a", ⟨CommandId.toggleReady⟩⟩ =
        (exIngameState, Effect.reject "a" CommandId.toggleReady "Game has already started")
    ∧ (executeCommand [] 0 exTwoAlmostReady ⟨"a", ⟨CommandId.toggleReady⟩⟩).1.phase
        = Phase.ingame := by
  refine ⟨?_, ?_, ?_⟩
  · exact (claim_C4 [([], 0, ⟨"b", ⟨CommandId.connectToRoom⟩⟩)] [] 0 exIngameState "a"
      { status := PStatus.ready, position := 0, hand := [], isOnline := true }).1 rfl
  · exact (claim_C4 [] [] 0 exIngameState "a"
      { status := PStatus.ready, position := 0, hand := [], isOnline := true }).2.1 rfl
  · exact (claim_C4 [] [] 0 exTwoAlmostReady "a"
      { status := PStatus.waiting, position := 0, hand := [], isOnline := true }).2.2
      rfl (by decide) (by decide) (by decide) rfl (by decide)

/-- Failures raised before any mutation (the already-started guard and the
unknown-uid lookup) leave the command body's state exactly the input state. -/
theorem runCommandBody_reject_state (deck : List Card) (choice : Nat) (s : GameState)
    (player : String) (cid : CommandId) (r : String)
    (h : (runCommandBody deck choice s player cid).2 = some r) :
    (r = "Game has already started" → (runCommandBody deck choice s player cid).1 = s)
    ∧ (r = "Cannot read properties of undefined (reading 'status')" →
        (runCommandBody deck choice s player cid).1 = s) := by
  cases cid with
  | connectToRoom =>
    unfold runCommandBody at h
    cases hl : lookupP s.players player with
    | none =>
      rw [hl] at h
      by_cases hp : s.phase = Phase.pregame <;> simp [hp] at h
    | some p => rw [hl] at h; simp at h
  | disconnectFromRoom =>
    unfold runCommandBody at h
    cases hl : lookupP s.players player with
    | some p =>
      rw [hl] at h
      by_cases hp : s.phase = Phase.ingame <;> simp [hp] at h
    | none => rw [hl] at h; simp at h
  | toggleReady =>
    simp only [runCommandBody] at h ⊢
    by_cases hp : s.phase = Phase.ingame
    · simp [hp]
    · rw [if_neg hp] at h ⊢
      cases hl : lookupP s.players player with
      | none => simp
      | some pl =>
        rw [hl] at h
        dsimp only at h ⊢
        by_cases hall : ((playersArray { s with players := updateFirst s.players player (fun p =>
            { p with status := if p.status = PStatus.waiting then PStatus.ready
              else PStatus.waiting }) }).all fun up =>
            decide (up.2.status = PStatus.ready)) = true
        · rw [if_pos hall] at h ⊢
          have herr := startGame_error _ _ _ _ h
          constructor <;> intro hr <;> exfalso <;> rw [hr] at herr <;>
            rcases herr with h1 | h1 <;> exact absurd h1 (by decide)
        · rw [if_neg hall] at h
          simp at h
  | restartGame => simp [runCommandBody] at h
  | callDutch => simp [runCommandBody] at h
  | drawDiscardPile => simp [runCommandBody] at h
  | drawDrawPile => simp [runCommandBody] at h
  | matchDiscard => simp [runCommandBody] at h
  | peek => simp [runCommandBody] at h
  | replaceDiscard => simp [runCommandBody] at h
  | swap => simp [runCommandBody] at h
  | unknownCmd tag => simp [runCommandBody] at h

/-- Claim C1 (amended): a rejected command appends nothing to the command log
and broadcasts nothing (the single outbound effect is the rejection), and the
rejections raised before any mutation — `toggle-ready` when the game has
already started, and `toggle-ready` from an unseated uid — leave the state
exactly unchanged.  (Per the counterexample, a rejection raised inside the
auto-started `startGame` does leave its earlier mutations in place.) -/
theorem claim_C1_amended (deck : List Card) (choice : Nat) (s : GameState)
    (cc : ClientCommand) (u : String) (cid : CommandId) (reason : String)
    (hrej : (executeCommand deck choice s cc).2 = Effect.reject u cid reason) :
    (executeCommand deck choice s cc).1.commands = s.commands
    ∧ (reason = "Game has already started" → (executeCommand deck choice s cc).1 = s)
    ∧ (reason = "Cannot read properties of undefined (reading 'status')" →
        (executeCommand deck choice s cc).1 = s) := by
  have hcmds := runCommandBody_commands deck choice s cc.player cc.command.id
  unfold executeCommand at hrej ⊢
  rcases hbody : runCommandBody deck choice s cc.player cc.command.id with ⟨s1, err⟩
  rw [hbody] at hrej hcmds
  cases err with
  | none => simp at hrej
  | some r =>
    simp only at hrej hcmds ⊢
    injection hrej with h1 h2 h3
    have hst := runCommandBody_reject_state deck choice s cc.player cc.command.id r
      (by rw [hbody])
    rw [hbody] at hst
    exact ⟨hcmds, fun hr => hst.1 (h3.trans hr), fun hr => hst.2 (h3.trans hr)⟩

/-- Counterexample to claim C1 as stated: a lone player's `toggle-ready`
makes the whole roster ready, the auto-start fails its player-count guard and
a rejection is sent, yet the issuing player's status flip survives — the
failing command did not leave the state as it was. -/
theorem claim_C1_counterexample :
    (executeCommand [] 0 exSoloState ⟨"a", ⟨CommandId.toggleReady⟩⟩).2 =
      Effect.reject "a" CommandId.toggleReady "Need at least two players to start game"
    ∧ (executeCommand [] 0 exSoloState ⟨"a", ⟨CommandId.toggleReady⟩⟩).1 ≠ exSoloState
    ∧ lookupP (executeCommand [] 0 exSoloState ⟨"a", ⟨CommandId.toggleReady⟩⟩).1.players "a"
        = some { status := PStatus.ready, position := 0, hand := [], isOnline := true } := by
  decide

/-- Witness for the amended C1: an `ingame` `toggle-ready` rejection leaves
the state exactly unchanged and the log untouched. -/
theorem claim_C1_witness :
    (executeCommand [] 0 exIngameState ⟨"a", ⟨CommandId.toggleReady⟩⟩).1.commands
      = exIngameState.commands
    ∧ (executeCommand [] 0 exIngameState ⟨"a", ⟨CommandId.toggleReady⟩⟩).1 = exIngameState := by
  have h := claim_C1_amended [] 0 exIngameState ⟨"a", ⟨CommandId.toggleReady⟩⟩ "a"
    CommandId.toggleReady "Game has already started" (by decide)
  exact ⟨h.1, h.2.1 rfl⟩

/-- Two-player lobby for the C3 and C6 witnesses. -/
def exTwoReady : GameState :=
  { initGameState with
    players :=
      [("a", { status := PStatus.ready, position := 0, hand := [], isOnline := true }),
       ("b", { status := PStatus.ready, position := 1, hand := [], isOnline := true })] }

/-- Nine-card deck for the C3 and C6 witnesses. -/
def exDeck9 : List Card :=
  (List.range 9).map (fun i =>
    { id := i + 1, payload := 10 * (i + 1), orientation := Orientation.down })

/-- Claim C7: over any sequence of connect/disconnect commands, the roster
invariant is preserved — uids stay pairwise distinct and positions stay a
dense 0-based permutation `0..n−1` after each command (apply the theorem to
any prefix of the sequence) — and `removePlayer`'s renumbering keeps the
remaining players in their old relative order: after a pregame disconnect the
roster's uid sequence is the old uid sequence with the leaver filtered
out.  (The preservation part needs no phase hypothesis: connect and
disconnect preserve the invariant in both phases.) -/
theorem claim_C7 (s : GameState) (trace : List (List Card × Nat × ClientCommand))
    (uid : String) (pl : Player) (deck : List Card) (choice : Nat)
    (hinv : rosterInv s) :
    ((∀ step ∈ trace, isConnDisc step.2.2) → rosterInv (runCommands trace s))
    ∧ (s.phase = Phase.pregame → lookupP s.players uid = some pl →
        (playersArray (executeCommand deck choice s
            ⟨uid, ⟨CommandId.disconnectFromRoom⟩⟩).1).map Prod.fst
          = ((playersArray s).map Prod.fst).filter (fun u => !(u = uid : Bool))) := by
  constructor
  · intro htr
    exact rosterInv_runCommands trace s htr hinv
  · intro hph hlk
    have hnot : ¬ (s.phase = Phase.ingame) := by
      rw [hph]
      intro hh
      cases hh
    unfold executeCommand
    simp only [runCommandBody, hlk, hnot, if_false]
    exact playersArray_removePlayer s uid hinv

/-- A connect-connect-disconnect trace for the C7 witness. -/
def exTraceCD : List (List Card × Nat × ClientCommand) :=
  [([], 0, ⟨"a", ⟨CommandId.connectToRoom⟩⟩),
   ([], 0, ⟨"b", ⟨CommandId.connectToRoom⟩⟩),
   ([], 0, ⟨"a", ⟨CommandId.disconnectFromRoom⟩⟩)]

/-- Witness for C7: a concrete connect/connect/disconnect run keeps the
roster invariant, and disconnecting "a" from the two-player roster leaves
exactly ["b"], renumbered but in order. -/
theorem claim_C7_witness :
    rosterInv (runCommands exTraceCD initGameState)
    ∧ (playersArray (executeCommand [] 0 exTwoReady
        ⟨"a", ⟨CommandId.disconnectFromRoom⟩⟩).1).map Prod.fst = ["b"] := by
  constructor
  · exact (claim_C7 initGameState exTraceCD "x"
      { status := PStatus.waiting, position := 0, hand := [], isOnline := true } [] 0
      (by constructor <;> decide)).1 (by decide)
  · have h := (claim_C7 exTwoReady [] "a"
      { status := PStatus.ready, position := 0, hand := [], isOnline := true } [] 0
      (by constructor <;> decide)).2 (by decide) (by decide)
    rw [h]
    decide

/-- Claim C3: after a successful `startGame` from a lobby state (empty hands
and discard pile, as in every reachable pregame state) with at least two
seated players, a deck of pairwise-distinct identifiers, and at least
`4·playerCount + 1` cards, every identifier of the generated deck occurs
exactly once across the union of draw pile, discard pile and hands — no
identifier lost, none duplicated. -/
theorem claim_C3 (deck : List Card) (choice : Nat) (sp : Option String) (s : GameState)
    (h2 : 2 ≤ s.players.length)
    (hnd : (deck.map Card.id).Nodup)
    (hlen : 4 * s.players.length + 1 ≤ deck.length)
    (hhands : ∀ up ∈ s.players, up.2.hand = [])
    (hdisc : s.discardPile = []) :
    (startGame deck choice sp s).2 = none
    ∧ dealtExactlyOnce deck (startGame deck choice sp s).1 = true := by
  unfold startGame
  rw [if_neg (by rw [length_playersArray]; omega)]
  have hks : ∀ u ∈ (playersArray { s with phase := Phase.ingame }).map Prod.fst,
      u ∈ (startSetup deck choice sp s).players.map Prod.fst := by
    intro u hu
    rcases List.mem_map.mp hu with ⟨x, hx, rfl⟩
    exact List.mem_map.mpr ⟨x, (perm_playersArray _).subset hx, rfl⟩
  have hcount : ((playersArray { s with phase := Phase.ingame }).map Prod.fst).length
      = s.players.length := by
    rw [List.length_map, length_playersArray]
  have hdk : 4 * ((playersArray { s with phase := Phase.ingame }).map Prod.fst).length + 1
      ≤ (startSetup deck choice sp s).drawPile.length := by
    rw [hcount]
    exact hlen
  have hmain := dealAndSeed_conserve _ _ hks hdk
  refine ⟨hmain.1, ?_⟩
  have hloc : locIds (startSetup deck choice sp s) = deck.map Card.id := by
    show deck.map Card.id ++ s.discardPile.map Card.id
      ++ (s.players.map (fun up => up.2.hand.map Card.id)).flatten = deck.map Card.id
    rw [hdisc, flatten_nil_of_empty hhands]
    simp
  rw [dealtExactlyOnce, List.all_eq_true]
  intro cid hcid
  have hcnt := hmain.2.count_eq cid
  rw [hloc] at hcnt
  have hone : (deck.map Card.id).count cid = 1 := List.count_eq_one_of_mem hnd hcid
  rw [beq_iff_eq, hcnt, hone]

/-- Claim C6: a successful `startGame` from a lobby state with `P ≥ 2` seated
players and an `N`-card deck, `N ≥ 4·P + 1`, gives every seated player
exactly 4 face-down cards dealt per-round round-robin — the player at roster
index `j` holds exactly the cards at deck positions `N − 1 − k·P − j` for
round `k = 0..3`, so every player's `k`-th card comes off the pile before any
player's `(k+1)`-th — leaves the discard pile with exactly 1 card and the
draw pile with exactly `N − 4·P − 1` cards. -/
theorem claim_C6 (deck : List Card) (choice : Nat) (s : GameState)
    (h2 : 2 ≤ s.players.length)
    (hkeys : (s.players.map Prod.fst).Nodup)
    (hhands : ∀ up ∈ s.players, up.2.hand = [])
    (hdisc : s.discardPile = [])
    (hlen : 4 * s.players.length + 1 ≤ deck.length) :
    (startGame deck choice none s).2 = none
    ∧ (startGame deck choice none s).1.drawPile
        = deck.take (deck.length - (4 * s.players.length + 1))
    ∧ (startGame deck choice none s).1.discardPile
        = [deck.getD (deck.length - (4 * s.players.length + 1)) defaultCard]
    ∧ ∀ (j : Nat) (u : String) (p : Player), (playersArray s)[j]? = some (u, p) →
        lookupP (startGame deck choice none s).1.players u =
          some { p with hand := (List.range 4).map (fun k =>
            { deck.getD (deck.length - 1 - k * s.players.length - j) defaultCard with
                orientation := Orientation.down }) } := by
  unfold startGame
  rw [if_neg (by rw [length_playersArray]; omega)]
  have hPA : playersArray { s with phase := Phase.ingame } = playersArray s := rfl
  have hcount : ((playersArray { s with phase := Phase.ingame }).map Prod.fst).length
      = s.players.length := by
    rw [List.length_map, length_playersArray]
  have hndu : ((playersArray { s with phase := Phase.ingame }).map Prod.fst).Nodup := by
    rw [hPA]
    exact (((perm_playersArray s).map Prod.fst).nodup_iff).mpr hkeys
  have hl4 : 4 * ((playersArray { s with phase := Phase.ingame }).map Prod.fst).length + 1
      ≤ (startSetup deck choice none s).drawPile.length := by
    show 4 * ((playersArray { s with phase := Phase.ingame }).map Prod.fst).length + 1
      ≤ deck.length
    rw [hcount]
    exact hlen
  have hspec := dealAndSeed_spec ((playersArray { s with phase := Phase.ingame }).map Prod.fst)
    (startSetup deck choice none s) hndu hl4
  have hsd : (startSetup deck choice none s).drawPile = deck := rfl
  have hsp : (startSetup deck choice none s).players = s.players := rfl
  have hsc : (startSetup deck choice none s).discardPile = s.discardPile := rfl
  simp only [hsd, hsp, hcount] at hspec
  refine ⟨hspec.1, hspec.2.1, ?_, ?_⟩
  · rw [hspec.2.2.1, hsc, hdisc, List.nil_append]
  intro j u p hj
  have hju : ((playersArray { s with phase := Phase.ingame }).map Prod.fst)[j]? = some u := by
    rw [hPA, List.getElem?_map, hj]
    rfl
  have hlk := hspec.2.2.2 j u hju
  have hmem : (u, p) ∈ s.players := (perm_playersArray s).subset (memOfGetElemQ hj)
  have hlp : lookupP s.players u = some p := mem_lookupP hkeys hmem
  have hph : p.hand = [] := hhands (u, p) hmem
  rw [hlk, hlp]
  simp [hph]

/-- Witness for C6: starting with two players and a nine-card deck empties
the draw pile (9 − 4·2 − 1 = 0), seeds the discard pile with the bottom-most
dealt card, and gives player "a" (roster index 0) the cards at deck positions
8, 6, 4, 2 — their k-th card dealt before anyone's (k+1)-th. -/
theorem claim_C6_witness :
    (startGame exDeck9 0 none exTwoReady).2 = none
    ∧ (startGame exDeck9 0 none exTwoReady).1.drawPile = []
    ∧ (startGame exDeck9 0 none exTwoReady).1.discardPile
        = [{ id := 1, payload := 10, orientation := Orientation.down }]
    ∧ lookupP (startGame exDeck9 0 none exTwoReady).1.players "a"
        = some { status := PStatus.ready
                 position := 0
                 hand := [{ id := 9, payload := 90, orientation := Orientation.down },
                          { id := 7, payload := 70, orientation := Orientation.down },
                          { id := 5, payload := 50, orientation := Orientation.down },
                          { id := 3, payload := 30, orientation := Orientation.down }]
                 isOnline := true } := by
  have h := claim_C6 exDeck9 0 exTwoReady (by decide) (by decide) (by decide)
    (by decide) (by decide)
  refine ⟨h.1, ?_, ?_, ?_⟩
  · rw [h.2.1]
    decide
  · rw [h.2.2.1]
    decide
  · have h4 := h.2.2.2 0 "a"
      { status := PStatus.ready, position := 0, hand := [], isOnline := true } (by decide)
    rw [h4]
    decide

/-- Witness for C3 at a concrete two-player lobby and nine-card deck. -/
theorem claim_C3_witness :
    (startGame exDeck9 0 none exTwoReady).2 = none
    ∧ dealtExactlyOnce exDeck9 (startGame exDeck9 0 none exTwoReady).1 = true :=
  claim_C3 exDeck9 0 none exTwoReady (by decide) (by decide) (by decide)
    (by decide) (by decide)

/-- Witness for C9: the stub `peek` on the initial state broadcasts to the
(empty) roster and appends to the log. -/
theorem claim_C9_witness :
    isNoOpCommand CommandId.peek = true ∧
    executeCommand [] 0 initGameState ⟨"a", ⟨CommandId.peek⟩⟩ =
      ({ initGameState with commands := [("a", ⟨CommandId.peek⟩)] }, Effect.broadcast []) :=
  ⟨by decide, by
    have h := claim_C9 [] 0 initGameState "a" ⟨CommandId.peek⟩ (by decide)
    simpa using h⟩

end Dutch
